import Mathlib

set_option maxRecDepth 4000

namespace SwitchOS

/-- JSON-like values produced by the tolerant parser (demjson3): null,
booleans, integers, strings, lists and objects.  Python `None` is `null`;
Python floats arising from true division are modelled as exact rationals. -/
inductive Val where
  | null : Val
  | bool : Bool → Val
  | num : Int → Val
  | rat : ℚ → Val
  | str : String → Val
  | list : List Val → Val
  | obj : List (String × Val) → Val
deriving Repr

/-- `value is None`. -/
def Val.isNull : Val → Bool
  | .null => true
  | _ => false

/-- `isinstance(value, list)`. -/
def Val.isList : Val → Bool
  | .list _ => true
  | _ => false

/-- Python truthiness, `bool(value)` / `if value:`. -/
def pyBool : Val → Bool
  | .null => false
  | .bool b => b
  | .num n => n != 0
  | .rat q => q != 0
  | .str s => s != ""
  | .list xs => !xs.isEmpty
  | .obj kvs => !kvs.isEmpty

/-- `json_data.get(name)`: `none` when the key is absent, otherwise the
stored value (which may itself be `Val.null`). -/
def lookupKey (jd : List (String × Val)) (k : String) : Option Val :=
  (jd.find? (fun p => p.1 == k)).map (fun p => p.2)

/-- `name in json_data`. -/
def hasKey (jd : List (String × Val)) (k : String) : Bool :=
  (jd.find? (fun p => p.1 == k)).isSome

/-- `json_data.get(name, default)`. -/
def pyGetD (jd : List (String × Val)) (k : String) (d : Val) : Val :=
  (lookupKey jd k).getD d

/-- Alias resolution of endpoint._parse_dict:
`next((json_data.get(name) for name in names if name in json_data), None)`.
The first alias key present in the mapping yields its stored value (which
may be `null`); when no alias key is present the result is `null`. -/
def resolveAlias (names : List String) (jd : List (String × Val)) : Val :=
  match names with
  | [] => .null
  | n :: rest => if hasKey jd n then pyGetD jd n .null else resolveAlias rest jd

/-- Binary digit characters of a natural number, most significant first
(Python `f"\x7bn:b\x7d"`; `0` renders as `"0"`). -/
def binChars (n : Nat) : List Char := Nat.toDigits 2 n

/-- Python `f"\x7bvalue:0\x7bwidth\x7db\x7d"`: binary rendering zero-padded to
`width`; for a negative number the sign comes first and counts toward the
width, with the zero padding between the sign and the digits. -/
def pyFormatBin (value : Int) (width : Nat) : List Char :=
  if value < 0 then
    let ds := binChars value.natAbs
    '-' :: (List.replicate (width - (ds.length + 1)) '0' ++ ds)
  else
    let ds := binChars value.toNat
    List.replicate (width - ds.length) '0' ++ ds

/-- utils.hex_to_bool_list:
`[c == "1" for c in f"\x7bvalue:0\x7blength\x7db\x7d"][::-1]`. -/
def hex_to_bool_list (value : Int) (length : Nat) : List Bool :=
  ((pyFormatBin value length).map (fun c => c == '1')).reverse

/-- Python list indexing `xs[i]` with negative-index support;
`IndexError` outside `[-len(xs), len(xs))`. -/
def pyIndex (xs : List String) (i : Int) : Except String String :=
  if 0 ≤ i then
    match xs.get? i.toNat with
    | some x => .ok x
    | none => .error "IndexError"
  else if 0 ≤ i + xs.length then
    match xs.get? (i + xs.length).toNat with
    | some x => .ok x
    | none => .error "IndexError"
  else .error "IndexError"

/-- utils.hex_to_option: `None if idx >= len(options) else options[idx]`.
A non-integer raw value is a `TypeError` (the `>=` comparison fails). -/
def hex_to_option (value : Val) (options : List String) : Except String Val :=
  match value with
  | .num idx =>
    if (options.length : Int) ≤ idx then .ok .null
    else (pyIndex options idx).map Val.str
  | _ => .error "TypeError"

/-- The per-value two's-complement correction inside utils.process_int:
`v - full if v >= half else v`. -/
def signCorrect (half full n : Int) : Int := if half ≤ n then n - full else n

/-- The list comprehension `[v - full if v >= half else v for v in value]`
of utils.process_int; a non-integer element is a `TypeError`. -/
def signCorrectList (half full : Int) : List Val → Except String (List Val)
  | [] => .ok []
  | Val.num n :: rest => (signCorrectList half full rest).map (fun t => Val.num (signCorrect half full n) :: t)
  | _ :: _ => .error "TypeError"

/-- The scaling loop `[v / scale for v in value]` of utils.process_int
(Python true division, modelled as exact rational division). -/
def scaleList (s : ℚ) : List Val → Except String (List Val)
  | [] => .ok []
  | Val.num n :: rest => (scaleList s rest).map (fun t => Val.rat ((n : ℚ) / s) :: t)
  | Val.rat q :: rest => (scaleList s rest).map (fun t => Val.rat (q / s) :: t)
  | _ :: _ => .error "TypeError"

/-- utils.process_int: optional two's-complement correction (applied when
`signed` and `bits` are both truthy), then optional true division by
`scale` (`scale = 0` is a `ZeroDivisionError`); any other value shape
passes through the steps that do not apply to it exactly as in Python. -/
def process_int (value : Val) (signed : Bool) (bits : Option Nat) (scale : Option ℚ) : Except String Val :=
  let corrected : Except String Val :=
    if signed && (bits.getD 0 != 0) then
      let b := bits.getD 0
      let half : Int := 2 ^ (b - 1)
      let full : Int := 2 ^ b
      match value with
      | .list xs => (signCorrectList half full xs).map Val.list
      | .num n => .ok (.num (signCorrect half full n))
      | _ => .error "TypeError"
    else .ok value
  match corrected, scale with
  | .error e, _ => .error e
  | .ok v, none => .ok v
  | .ok v, some s =>
    if s = 0 then .error "ZeroDivisionError"
    else
      match v with
      | .list xs => (scaleList s xs).map Val.list
      | .num n => .ok (.rat ((n : ℚ) / s))
      | .rat q => .ok (.rat (q / s))
      | _ => .error "TypeError"

/-- utils.hex_to_ip: `value.to_bytes(4, byteorder="little")` then dotted
decimal; `to_bytes` raises `OverflowError` outside `[0, 2^32)`. -/
def hex_to_ip (value : Int) : Except String String :=
  if 0 ≤ value ∧ value < 2 ^ 32 then
    let v := value.toNat
    .ok (String.intercalate "." ([v % 256, v / 256 % 256, v / 256 ^ 2 % 256, v / 256 ^ 3 % 256].map toString))
  else .error "OverflowError"

/-- utils.hex_to_partner_ip: zero maps to the empty string. -/
def hex_to_partner_ip (value : Int) : Except String String :=
  if value = 0 then .ok "" else hex_to_ip value

/-- Python `(v >> i) & 1`: bit `i` of a (possibly negative) int, as the
floor shift followed by the nonnegative remainder; the result is 0 or 1. -/
def pyBit (v : Int) (i : Nat) : Int := (Int.fdiv v (2 ^ i)) % 2

/-- The loop of utils.hex_to_bool_option over the port indices:
`opts[1] if ((value >> i) & 1) else opts[0]` for each index. -/
def boolOptionLoop (v : Int) (options : List String) : List Nat → Except String (List Val)
  | [] => .ok []
  | i :: rest =>
    match (if pyBit v i != 0 then pyIndex options 1 else pyIndex options 0) with
    | .error e => .error e
    | .ok s => (boolOptionLoop v options rest).map (fun t => Val.str s :: t)

/-- utils.hex_to_bool_option: a bitmask exploded into `length` labels,
bit `i` selecting `opts[1]` when set, `opts[0]` otherwise. -/
def hex_to_bool_option (value : Val) (options : List String) (length : Nat) : Except String Val :=
  match value with
  | .num v => (boolOptionLoop v options (List.range length)).map Val.list
  | _ => .error "TypeError"

/-- The loop of utils.hex_to_bitshift_option over the port indices:
2-bit index `low_bit | (high_bit << 1)`, clamped by
`min(index, len(opts) - 1)`, then `opts[index]`. -/
def bitshiftLoop (lo hi : Int) (options : List String) : List Nat → Except String (List Val)
  | [] => .ok []
  | i :: rest =>
    let low_bit := (pyBit lo i).toNat
    let high_bit := (pyBit hi i).toNat
    let index : Int := (Nat.lor low_bit (high_bit <<< 1) : Nat)
    let index := min index ((options.length : Int) - 1)
    match pyIndex options index with
    | .error e => .error e
    | .ok s => (bitshiftLoop lo hi options rest).map (fun t => Val.str s :: t)

/-- utils.hex_to_bitshift_option: two bitmasks combined into per-port
2-bit indices into the label table, clamped to the last label. -/
def hex_to_bitshift_option (low high : Val) (options : List String) (length : Nat) : Except String Val :=
  match low, high with
  | .num lo, .num hi => (bitshiftLoop lo hi options (List.range length)).map Val.list
  | _, _ => .error "TypeError"

/-- The field type tags of the decoder fragment modelled here: the integer
and option based transforms of endpoint._parse_dict.  The remaining tags
(str, mac, partner_mac, sfp_type, dbm) act on hex-encoded byte strings or
produce floating-point logarithms and are outside this development. -/
inductive FieldType where
  | bool | scalar_bool | int | uint64 | option | bool_option | bitshift_option | ip | partner_ip
deriving Repr, DecidableEq

/-- One dataclass field descriptor: target attribute name, the alias list
(metadata "name"), the type tag, and the optional type-specific metadata
entries (ports override, signed, bits, scale, high key, pair key, option
labels), `none`/defaults standing for absent metadata keys. -/
structure FieldMeta where
  name : String
  aliases : List String
  type : FieldType
  ports : Option Nat
  signed : Bool
  bits : Option Nat
  scale : Option ℚ
  high : Option String
  pair : Option String
  options : List String
deriving Repr

/-- The uint64 list comprehension
`[lo + hi * (2**32) for lo, hi in zip(value, high_list)]`;
a pair with a non-integer component is a `TypeError`. -/
def uint64Zip : List (Val × Val) → Except String (List Val)
  | [] => .ok []
  | (Val.num lo, Val.num hi) :: rest => (uint64Zip rest).map (fun t => Val.num (lo + hi * 2 ^ 32) :: t)
  | _ :: _ => .error "TypeError"

/-- The element-wise option comprehension
`[hex_to_option(v, options) for v in value]`. -/
def optionList (options : List String) : List Val → Except String (List Val)
  | [] => .ok []
  | v :: rest =>
    match hex_to_option v options with
    | .error e => .error e
    | .ok o => (optionList options rest).map (fun t => o :: t)

/-- The element-wise comprehension `[hex_to_partner_ip(v) for v in value]`. -/
def partnerIpList : List Val → Except String (List Val)
  | [] => .ok []
  | Val.num n :: rest =>
    match hex_to_partner_ip n with
    | .error e => .error e
    | .ok s => (partnerIpList rest).map (fun t => Val.str s :: t)
  | _ :: _ => .error "TypeError"

/-- The `match field_type:` dispatch of endpoint._parse_dict, applied to a
resolved (non-null) raw value, for the modelled field type fragment. -/
def applyTransform (f : FieldMeta) (jd : List (String × Val)) (port_count : Nat) (value : Val) : Except String Val :=
  match f.type with
  | .bool =>
    let length := f.ports.getD port_count
    match value with
    | .num v => .ok (.list ((hex_to_bool_list v length).map Val.bool))
    | _ => .error "TypeError"
  | .scalar_bool => .ok (.bool (pyBool value))
  | .int => process_int value f.signed f.bits f.scale
  | .uint64 =>
    let high_value := match f.high with
      | some hk => pyGetD jd hk (Val.num 0)
      | none => Val.num 0
    match value with
    | .list xs =>
      let high_list := match high_value with
        | .list hs => hs
        | _ => List.replicate xs.length (Val.num 0)
      (uint64Zip (List.zip xs high_list)).map Val.list
    | .num lo =>
      match high_value with
      | .num hi => .ok (.num (lo + hi * 2 ^ 32))
      | _ => .error "TypeError"
    | _ => .error "TypeError"
  | .option =>
    match value with
    | .list xs => (optionList f.options xs).map Val.list
    | _ => hex_to_option value f.options
  | .bool_option =>
    let length := f.ports.getD port_count
    hex_to_bool_option value f.options length
  | .bitshift_option =>
    let pair_value := match f.pair with
      | some pk => pyGetD jd pk (Val.num 0)
      | none => Val.num 0
    let length := f.ports.getD port_count
    hex_to_bitshift_option value pair_value f.options length
  | .ip =>
    match value with
    | .num n => (hex_to_ip n).map Val.str
    | _ => .error "TypeError"
  | .partner_ip =>
    match value with
    | .list xs => (partnerIpList xs).map Val.list
    | .num n => (hex_to_partner_ip n).map Val.str
    | _ => .error "TypeError"

/-- endpoint._parse_dict: for each field in schema order, resolve the
alias, skip the field when the resolved value is null/missing, otherwise
apply the type transform (its error propagates), collecting the
name-value assignments of the result dict in order. -/
def _parse_dict (flds : List FieldMeta) (jd : List (String × Val)) (port_count : Nat) : Except String (List (String × Val)) :=
  match flds with
  | [] => .ok []
  | f :: rest =>
    let value := resolveAlias f.aliases jd
    if value.isNull then _parse_dict rest jd port_count
    else
      match applyTransform f jd port_count value with
      | .error e => .error e
      | .ok v =>
        match _parse_dict rest jd port_count with
        | .error e => .error e
        | .ok tail => .ok ((f.name, v) :: tail)

/-- `next((v for v in json_data.values() if isinstance(v, list)), None)`:
the first list-valued entry of the mapping, in insertion order. -/
def firstArr : List (String × Val) → Option (List Val)
  | [] => none
  | (_, Val.list xs) :: _ => some xs
  | _ :: rest => firstArr rest

/-- `port_count = len(first_arr) if first_arr else 10`: an empty first
list is falsy in Python and also falls back to 10. -/
def inferPortCount (jd : List (String × Val)) : Nat :=
  match firstArr jd with
  | some [] => 10
  | some xs => xs.length
  | none => 10

/-- endpoint.readDataclass on an already-parsed top-level mapping:
infer the port count, then parse the single record. -/
def readDataclass (flds : List FieldMeta) (jd : List (String × Val)) : Except String (List (String × Val)) :=
  _parse_dict flds jd (inferPortCount jd)

/-- The comprehension `[_parse_dict(cls, item, port_count) for item in json_array]`
of endpoint.readListDataclass; a non-mapping item is an `AttributeError`. -/
def parseItems (flds : List FieldMeta) (pc : Nat) : List Val → Except String (List (List (String × Val)))
  | [] => .ok []
  | Val.obj ikvs :: rest =>
    match _parse_dict flds ikvs pc with
    | .error e => .error e
    | .ok r => (parseItems flds pc rest).map (fun t => r :: t)
  | _ :: _ => .error "AttributeError"

/-- endpoint.readListDataclass on an already-parsed tree: a falsy tree
(empty list, empty object, null) yields `[]`; otherwise the port count is
inferred once from the first entry and every entry is parsed with it;
a non-list tree or a non-mapping first entry raises. -/
def readListDataclass (flds : List FieldMeta) (tree : Val) : Except String (List (List (String × Val))) :=
  if pyBool tree then
    match tree with
    | .list (Val.obj kvs :: rest) =>
      let port_count := inferPortCount kvs
      parseItems flds port_count (Val.obj kvs :: rest)
    | .list (_ :: _) => .error "AttributeError"
    | _ => .error "TypeError"
  else .ok []

lemma firstArr_of_no_list (jd : List (String × Val)) (h : ∀ kv, kv ∈ jd → (kv.2).isList = false) :
    firstArr jd = none := by
  induction jd with
  | nil => rfl
  | cons kv rest ih =>
    obtain ⟨k, v⟩ := kv
    have hv : v.isList = false := h (k, v) (List.mem_cons_self _ _)
    have htail : ∀ kv, kv ∈ rest → (kv.2).isList = false :=
      fun kv hkv => h kv (List.mem_cons_of_mem _ hkv)
    cases v with
    | list xs => exact absurd hv (by simp [Val.isList])
    | null => exact ih htail
    | bool b => exact ih htail
    | num n => exact ih htail
    | rat q => exact ih htail
    | str s => exact ih htail
    | obj kvs => exact ih htail

lemma firstArr_first_list (pre : List (String × Val)) (k : String) (xs : List Val)
    (post : List (String × Val)) (h : ∀ kv, kv ∈ pre → (kv.2).isList = false) :
    firstArr (pre ++ (k, Val.list xs) :: post) = some xs := by
  induction pre with
  | nil => rfl
  | cons kv rest ih =>
    obtain ⟨k0, v0⟩ := kv
    have hv : v0.isList = false := h (k0, v0) (List.mem_cons_self _ _)
    have htail : ∀ kv, kv ∈ rest → (kv.2).isList = false :=
      fun kv hkv => h kv (List.mem_cons_of_mem _ hkv)
    cases v0 with
    | list ys => exact absurd hv (by simp [Val.isList])
    | null => exact ih htail
    | bool b => exact ih htail
    | num n => exact ih htail
    | rat q => exact ih htail
    | str s => exact ih htail
    | obj kvs => exact ih htail

/-- C2: the code violates the claimed fixed output length.  Decoding the
bitmask 4 with port count 2 yields three booleans instead of two: the
binary rendering is never truncated to the requested width, so any value
of at least 2 to the port count overflows the output, contradicting the
docstring of hex_to_bool_list ("List of booleans of the specified
length").  Element 2 of the output is the (out of range) bit 2. -/
theorem C2_bool_list_overflow :
    hex_to_bool_list 4 2 = [false, false, true] ∧ (hex_to_bool_list 4 2).length ≠ 2 := by
  constructor
  · rfl
  · decide

/-- C3 counterexample: a record whose first list-valued entry is the empty
list is decoded with the default port count 10, not with the claimed
port count 0 (the length of that first list). -/
theorem C3_port_count_cex :
    inferPortCount [("a", Val.list [])] = 10 ∧
    inferPortCount [("a", Val.list [])] ≠ List.length ([] : List Val) := by
  constructor
  · rfl
  · decide

/-- C3 (amended): the inferred port count is the length of the first
list-valued value of the top-level mapping, in insertion order, when that
first list is nonempty; when no top-level value is a list, or the first
list-valued value is the empty list (falsy in Python), it is the fixed
default 10. -/
theorem C3_port_count (jd : List (String × Val)) :
    ((∀ kv, kv ∈ jd → (kv.2).isList = false) → inferPortCount jd = 10) ∧
    (∀ pre k xs post, jd = pre ++ (k, Val.list xs) :: post →
      (∀ kv, kv ∈ pre → (kv.2).isList = false) →
      inferPortCount jd = if xs.isEmpty then 10 else xs.length) := by
  constructor
  · intro h
    simp [inferPortCount, firstArr_of_no_list jd h]
  · intro pre k xs post hjd hpre
    subst hjd
    rw [inferPortCount, firstArr_first_list pre k xs post hpre]
    cases xs <;> simp

/-- C3 witness: with one non-list entry before a two-element list entry,
the inferred port count is 2. -/
theorem C3_port_count_w :
    inferPortCount [("a", Val.num 1), ("b", Val.list [Val.num 1, Val.num 2])] = 2 := by
  have h := (C3_port_count [("a", Val.num 1), ("b", Val.list [Val.num 1, Val.num 2])]).2
    [("a", Val.num 1)] "b" [Val.num 1, Val.num 2] [] rfl (by decide)
  simpa using h

/-- C5: for a nonnegative index into an option table, an index below the
table length returns the label at that position and an index at or above
the table length returns null (the absent value), never an error. -/
theorem C5_option_lookup (options : List String) (i : Nat) :
    (options.length ≤ i → hex_to_option (Val.num i) options = Except.ok Val.null) ∧
    (∀ h : i < options.length,
      hex_to_option (Val.num i) options = Except.ok (Val.str (options.get ⟨i, h⟩))) := by
  constructor
  · intro h
    have hcast : (options.length : Int) ≤ (i : Nat) := by exact_mod_cast h
    simp [hex_to_option, hcast]
  · intro h
    have hcast : ¬ ((options.length : Int) ≤ (i : Nat)) := by
      exact_mod_cast not_le.mpr h
    simp only [hex_to_option, if_neg hcast, pyIndex, Int.natCast_nonneg, if_pos,
      Int.toNat_natCast]
    rw [List.get?_eq_get h]
    rfl

/-- C5 witness: table ["a", "b"], index 1 gives "b", index 5 gives null. -/
theorem C5_option_lookup_w :
    hex_to_option (Val.num 1) ["a", "b"] = Except.ok (Val.str "b") ∧
    hex_to_option (Val.num 5) ["a", "b"] = Except.ok Val.null := by
  constructor
  · exact (C5_option_lookup ["a", "b"] 1).2 (by decide)
  · exact (C5_option_lookup ["a", "b"] 5).1 (by decide)

/-- C10: a negative index i with -L ≤ i < 0 into an option table of
length L selects the label at position L + i (Python indexing from the
end) rather than the absent value, and the absent value (null) arises
only for indices at or above L. -/
theorem C10_option_negative (options : List String) (i : Int) :
    (i < 0 → -(options.length : Int) ≤ i →
      hex_to_option (Val.num i) options
        = Except.ok (Val.str (options.getD (i + options.length).toNat ""))) ∧
    (hex_to_option (Val.num i) options = Except.ok Val.null → (options.length : Int) ≤ i) := by
  constructor
  · intro hneg hge
    have hnotge : ¬ ((options.length : Int) ≤ i) := by
      intro hc
      exact absurd (lt_of_lt_of_le hneg (le_trans (Int.natCast_nonneg _) hc)) (lt_irrefl i)
    have hnotpos : ¬ (0 ≤ i) := not_le.mpr hneg
    have hplus : 0 ≤ i + options.length := by omega
    have hlt : (i + options.length).toNat < options.length := by
      rw [Int.toNat_lt hplus]
      omega
    simp only [hex_to_option, if_neg hnotge, pyIndex, if_neg hnotpos, if_pos hplus]
    rw [List.get?_eq_get hlt, List.getD_eq_get?, List.get?_eq_get hlt]
    rfl
  · intro h
    by_contra hc
    have hnotge : ¬ ((options.length : Int) ≤ i) := hc
    simp only [hex_to_option, if_neg hnotge] at h
    cases hx : pyIndex options i with
    | error e => rw [hx] at h; cases h
    | ok s => rw [hx] at h; cases h

/-- C10 witness: table ["a", "b", "c"], index -1 gives the last label "c". -/
theorem C10_option_negative_w :
    hex_to_option (Val.num (-1)) ["a", "b", "c"] = Except.ok (Val.str "c") := by
  have h := (C10_option_negative ["a", "b", "c"] (-1)).1 (by decide) (by decide)
  simpa using h

lemma uint64Zip_replicate_zero (ns : List Int) :
    uint64Zip (List.zip (ns.map Val.num) (List.replicate (ns.map Val.num).length (Val.num 0)))
      = Except.ok (ns.map Val.num) := by
  induction ns with
  | nil => rfl
  | cons n t ih =>
    rw [List.length_map] at ih
    calc uint64Zip (List.zip (List.map Val.num (n :: t))
            (List.replicate (List.map Val.num (n :: t)).length (Val.num 0)))
        = (uint64Zip (List.zip (List.map Val.num t) (List.replicate t.length (Val.num 0)))).map
            (fun r => Val.num (n + 0 * 2 ^ 32) :: r) := by
          rw [List.map_cons, List.length_cons, List.length_map, List.replicate_succ,
            List.zip_cons_cons]
          rfl
      _ = Except.ok (List.map Val.num (n :: t)) := by
          rw [ih]
          show Except.ok (Val.num (n + 0 * 2 ^ 32) :: List.map Val.num t)
            = Except.ok (Val.num n :: List.map Val.num t)
          norm_num

/-- C1 counterexample: a uint64 field whose low value is the list [5] and
whose companion high key holds the scalar 1 decodes to [5], not to
[5 + 1 * 2^32]: the scalar high value is not broadcast. -/
theorem C1_uint64_cex :
    _parse_dict [⟨"x", ["lo"], FieldType.uint64, none, false, none, none, some "hi", none, []⟩]
        [("lo", Val.list [Val.num 5]), ("hi", Val.num 1)] 10
      = Except.ok [("x", Val.list [Val.num 5])] ∧
    (5 : Int) ≠ 5 + 1 * 2 ^ 32 := by
  constructor
  · rfl
  · norm_num

/-- C1 (amended): for a uint64 field whose resolved low value is a list of
integers and whose companion high key resolves to a single (scalar)
integer, the high value is ignored: the high list is replaced by zeros,
so the decoded output is exactly the low list (element-wise low[i] + 0 *
2^32).  Only a list-valued high is paired element-wise. -/
theorem C1_uint64_scalar_high (f : FieldMeta) (jd : List (String × Val)) (pc : Nat)
    (hk : String) (ns : List Int) (h : Int)
    (ht : f.type = FieldType.uint64) (hh : f.high = some hk)
    (hl : lookupKey jd hk = some (Val.num h)) :
    applyTransform f jd pc (Val.list (ns.map Val.num))
      = Except.ok (Val.list (ns.map Val.num)) := by
  simp only [applyTransform, ht, hh, pyGetD, hl, Option.getD_some]
  rw [uint64Zip_replicate_zero ns]
  rfl

/-- C1 witness: the amended statement at the counterexample input. -/
theorem C1_uint64_scalar_high_w :
    applyTransform ⟨"x", ["lo"], FieldType.uint64, none, false, none, none, some "hi", none, []⟩
        [("lo", Val.list [Val.num 5]), ("hi", Val.num 1)] 10 (Val.list [Val.num 5])
      = Except.ok (Val.list [Val.num 5]) :=
  C1_uint64_scalar_high _ _ 10 "hi" [5] 1 rfl rfl rfl

lemma resolveAlias_null_of_first_present_null (jd : List (String × Val))
    (pre post : List String) (a : String)
    (hpre : ∀ k, k ∈ pre → hasKey jd k = false)
    (ha : lookupKey jd a = some Val.null) :
    resolveAlias (pre ++ a :: post) jd = Val.null := by
  induction pre with
  | nil =>
    have hk : hasKey jd a = true := by
      rcases Option.map_eq_some'.mp ha with ⟨p, hp, _⟩
      simp [hasKey, hp]
    simp [resolveAlias, hk, pyGetD, ha]
  | cons k0 t ih =>
    have hk0 : hasKey jd k0 = false := hpre k0 (List.mem_cons_self _ _)
    have htail : ∀ k, k ∈ t → hasKey jd k = false :=
      fun k hkmem => hpre k (List.mem_cons_of_mem _ hkmem)
    simp [resolveAlias, hk0, ih htail]

/-- C9: when the first alias key present in the mapping is bound to null,
the field keeps its schema-declared default (it is skipped, so the result
dict has no entry for it) and later alias keys are never consulted, even
if present with non-null values: the resolved value is null for every
possible tail of the alias list. -/
theorem C9_null_alias_stops (f : FieldMeta) (jd : List (String × Val)) (pc : Nat)
    (pre post : List String) (a : String)
    (hf : f.aliases = pre ++ a :: post)
    (hpre : ∀ k, k ∈ pre → hasKey jd k = false)
    (ha : lookupKey jd a = some Val.null) :
    resolveAlias f.aliases jd = Val.null ∧ _parse_dict [f] jd pc = Except.ok [] := by
  have hres : resolveAlias f.aliases jd = Val.null := by
    rw [hf]
    exact resolveAlias_null_of_first_present_null jd pre post a hpre ha
  refine ⟨hres, ?_⟩
  simp [_parse_dict, hres, Val.isNull]

/-- C9 witness: the field with aliases ["a", "b"] stays at its default
(empty result dict) although "b" is present with the non-null value 7,
because "a" is present and null. -/
theorem C9_null_alias_stops_w :
    _parse_dict [⟨"x", ["a", "b"], FieldType.int, none, false, none, none, none, none, []⟩]
        [("a", Val.null), ("b", Val.num 7)] 10 = Except.ok [] :=
  (C9_null_alias_stops ⟨"x", ["a", "b"], FieldType.int, none, false, none, none, none, none, []⟩
    [("a", Val.null), ("b", Val.num 7)] 10 [] ["b"] "a" rfl (by simp) rfl).2

lemma signCorrectList_map_num (half full : Int) (ns : List Int) :
    signCorrectList half full (ns.map Val.num)
      = Except.ok ((ns.map (signCorrect half full)).map Val.num) := by
  induction ns with
  | nil => rfl
  | cons n t ih =>
    show (signCorrectList half full (t.map Val.num)).map
        (fun r => Val.num (signCorrect half full n) :: r)
      = Except.ok ((((n :: t).map (signCorrect half full))).map Val.num)
    rw [ih]
    rfl

/-- C7: for an int field declared signed with a positive bit width b and
no scale, each raw integer v maps to v - 2^b when v is at least 2^(b-1)
and stays v otherwise, element-wise over lists, staying an integer; with
a nonzero scale divisor s the result is the exact rational quotient of
the (sign-corrected) value by s, never an integer-truncated division. -/
theorem C7_process_int_signed_scale (v : Int) (b : Nat) (s : ℚ) (ns : List Int)
    (hb : 0 < b) (hs : s ≠ 0) :
    process_int (Val.num v) true (some b) none
        = Except.ok (Val.num (if 2 ^ (b - 1) ≤ v then v - 2 ^ b else v)) ∧
    process_int (Val.list (ns.map Val.num)) true (some b) none
        = Except.ok (Val.list ((ns.map (fun n =>
            if 2 ^ (b - 1) ≤ n then n - 2 ^ b else n)).map Val.num)) ∧
    process_int (Val.num v) true (some b) (some s)
        = Except.ok (Val.rat (((if 2 ^ (b - 1) ≤ v then v - 2 ^ b else v : Int) : ℚ) / s)) ∧
    process_int (Val.num v) false none (some s)
        = Except.ok (Val.rat ((v : ℚ) / s)) := by
  have hb0 : (b != 0) = true := by
    simp [bne]
    omega
  refine ⟨?_, ?_, ?_, ?_⟩
  · simp [process_int, hb0, signCorrect]
  · simp only [process_int, Bool.true_and, Option.getD_some, hb0, if_pos,
      signCorrectList_map_num, Except.map]
    rfl
  · simp [process_int, hb0, signCorrect, hs]
  · simp [process_int, hs]

/-- C7 witness: v = 200 with bit width 8 gives -56; scaling -56 by 10
gives the exact rational -28/5 (not an integer truncation). -/
theorem C7_process_int_signed_scale_w :
    process_int (Val.num 200) true (some 8) none = Except.ok (Val.num (-56)) ∧
    process_int (Val.num 200) true (some 8) (some 10)
      = Except.ok (Val.rat (-28 / 5)) := by
  have h := C7_process_int_signed_scale 200 8 10 [] (by norm_num) (by norm_num)
  constructor
  · rw [h.1]
    norm_num
  · rw [h.2.2.1]
    norm_num

lemma pyBit_natCast (v i : Nat) : pyBit (v : Int) i = if Nat.testBit v i then 1 else 0 := by
  have hpow : ((2 : Int) ^ i) = ((2 ^ i : Nat) : Int) := by push_cast; ring
  have hfd : Int.fdiv (v : Int) ((2 : Int) ^ i) = ((v / 2 ^ i : Nat) : Int) := by
    rw [hpow, Int.fdiv_eq_div (Int.natCast_nonneg v) (Int.natCast_nonneg _), Int.ofNat_div]
  have hmod : ((v / 2 ^ i : Nat) : Int) % 2 = ((v / 2 ^ i % 2 : Nat) : Int) := by
    push_cast
    ring
  simp only [pyBit, hfd, hmod, Nat.testBit_to_div_mod]
  rcases Nat.mod_two_eq_zero_or_one (v / 2 ^ i) with hz | hz <;> simp [hz]

lemma pyIndex_nat (opts : List String) (m : Nat) (hm : m < opts.length) :
    pyIndex opts (m : Int) = Except.ok (opts.getD m "") := by
  simp only [pyIndex, Int.natCast_nonneg, if_pos, Int.toNat_natCast]
  rw [List.getD_eq_get?, List.get?_eq_get hm]
  rfl

lemma min_int_natCast (idx len : Nat) (hlen : 1 ≤ len) :
    min (idx : Int) ((len : Int) - 1) = ((min idx (len - 1) : Nat) : Int) := by
  rcases le_total idx (len - 1) with h | h
  · rw [min_eq_left h, min_eq_left (show (idx : Int) ≤ (len : Int) - 1 by omega)]
  · rw [min_eq_right h, min_eq_right (show ((len : Int) - 1) ≤ (idx : Int) by omega)]
    omega

lemma bitshiftLoop_map (lo hi : Nat) (opts : List String) (h : opts ≠ []) (l : List Nat) :
    bitshiftLoop (lo : Int) (hi : Int) opts l
      = Except.ok (l.map (fun i => Val.str (opts.getD
          (min ((if Nat.testBit lo i then 1 else 0) + 2 * (if Nat.testBit hi i then 1 else 0))
            (opts.length - 1)) ""))) := by
  have hlen : 1 ≤ opts.length := List.length_pos.mpr h
  induction l with
  | nil => rfl
  | cons i t ih =>
    have hidx : Nat.lor (pyBit (lo : Int) i).toNat ((pyBit (hi : Int) i).toNat <<< 1)
        = (if Nat.testBit lo i then 1 else 0) + 2 * (if Nat.testBit hi i then 1 else 0) := by
      rw [pyBit_natCast, pyBit_natCast]
      cases hlo : Nat.testBit lo i <;> cases hhi : Nat.testBit hi i <;> rfl
    have hmlt : min ((if Nat.testBit lo i then 1 else 0)
        + 2 * (if Nat.testBit hi i then 1 else 0)) (opts.length - 1) < opts.length :=
      Nat.lt_of_le_of_lt (min_le_right _ _) (by omega)
    simp only [bitshiftLoop, hidx, min_int_natCast _ _ hlen, pyIndex_nat opts _ hmlt, ih]
    rfl

/-- C6: for nonnegative low and high bitmasks, a nonempty label table and
port count N, the bitshift_option transform yields the list whose element
at position i (for i below N) is the label at index
min(low bit i + 2 * high bit i, table length - 1): the 2-bit combined
index (low bit or high bit shifted left by one) clamped to the last
valid label. -/
theorem C6_bitshift_formula (lo hi : Nat) (options : List String) (N : Nat)
    (h : options ≠ []) :
    hex_to_bitshift_option (Val.num lo) (Val.num hi) options N
      = Except.ok (Val.list ((List.range N).map (fun i => Val.str (options.getD
          (min ((if Nat.testBit lo i then 1 else 0) + 2 * (if Nat.testBit hi i then 1 else 0))
            (options.length - 1)) "")))) := by
  simp only [hex_to_bitshift_option]
  rw [bitshiftLoop_map lo hi options h (List.range N)]
  rfl

/-- C6 witness: low bitmask 1, high bitmask 2, three labels, two ports:
position 0 has low bit set only (index 1), position 1 has high bit set
only (index 2). -/
theorem C6_bitshift_formula_w :
    hex_to_bitshift_option (Val.num 1) (Val.num 2) ["shared", "ptp", "edge"] 2
      = Except.ok (Val.list [Val.str "ptp", Val.str "edge"]) :=
  (C6_bitshift_formula 1 2 ["shared", "ptp", "edge"] 2 (by decide)).trans (by rfl)

/-- C4: decoding a record is all-or-nothing.  For every schema, mapping
and port count, either the parse succeeds and the result dict binds every
field whose resolved alias value is non-null to the successful output of
its transform, or the parse fails with exactly the error of some present
field's transform; the decoder never substitutes a default for a value it
failed to transform. -/
theorem C4_all_or_nothing (flds : List FieldMeta) (jd : List (String × Val)) (pc : Nat) :
    (∃ r, _parse_dict flds jd pc = Except.ok r ∧
      ∀ f, f ∈ flds → (resolveAlias f.aliases jd).isNull = false →
        ∃ v, applyTransform f jd pc (resolveAlias f.aliases jd) = Except.ok v ∧
          (f.name, v) ∈ r) ∨
    (∃ e f, _parse_dict flds jd pc = Except.error e ∧ f ∈ flds ∧
      (resolveAlias f.aliases jd).isNull = false ∧
      applyTransform f jd pc (resolveAlias f.aliases jd) = Except.error e) := by
  induction flds with
  | nil => exact Or.inl ⟨[], rfl, by simp⟩
  | cons f rest ih =>
    cases hnull : (resolveAlias f.aliases jd).isNull with
    | true =>
      have hstep : _parse_dict (f :: rest) jd pc = _parse_dict rest jd pc := by
        simp [_parse_dict, hnull]
      rcases ih with ⟨r, hr, hall⟩ | ⟨e, g, he, hg, hgn, hge⟩
      · refine Or.inl ⟨r, hstep.trans hr, ?_⟩
        intro f0 hf0 hn0
        rcases List.mem_cons.mp hf0 with rfl | hf0m
        · rw [hnull] at hn0
          cases hn0
        · exact hall f0 hf0m hn0
      · exact Or.inr ⟨e, g, hstep.trans he, List.mem_cons_of_mem _ hg, hgn, hge⟩
    | false =>
      cases happ : applyTransform f jd pc (resolveAlias f.aliases jd) with
      | error e =>
        refine Or.inr ⟨e, f, ?_, List.mem_cons_self _ _, hnull, happ⟩
        simp [_parse_dict, hnull, happ]
      | ok v =>
        rcases ih with ⟨r, hr, hall⟩ | ⟨e, g, he, hg, hgn, hge⟩
        · refine Or.inl ⟨(f.name, v) :: r, ?_, ?_⟩
          · simp [_parse_dict, hnull, happ, hr]
          · intro f0 hf0 hn0
            rcases List.mem_cons.mp hf0 with rfl | hf0m
            · exact ⟨v, happ, List.mem_cons_self _ _⟩
            · obtain ⟨v0, hv0, hv0m⟩ := hall f0 hf0m hn0
              exact ⟨v0, hv0, List.mem_cons_of_mem _ hv0m⟩
        · refine Or.inr ⟨e, g, ?_, List.mem_cons_of_mem _ hg, hgn, hge⟩
          simp [_parse_dict, hnull, happ, he]

/-- C4 witness: the dichotomy evaluated at a one-field schema whose bool
field decodes the present bitmask successfully. -/
theorem C4_all_or_nothing_w :
    (∃ r, _parse_dict [⟨"p", ["a"], FieldType.bool, some 2, false, none, none, none, none, []⟩]
        [("a", Val.num 3)] 10 = Except.ok r ∧
      ∀ f, f ∈ [(⟨"p", ["a"], FieldType.bool, some 2, false, none, none, none, none, []⟩ : FieldMeta)] →
        (resolveAlias f.aliases [("a", Val.num 3)]).isNull = false →
        ∃ v, applyTransform f [("a", Val.num 3)] 10
            (resolveAlias f.aliases [("a", Val.num 3)]) = Except.ok v ∧ (f.name, v) ∈ r) ∨
    (∃ e f, _parse_dict [⟨"p", ["a"], FieldType.bool, some 2, false, none, none, none, none, []⟩]
        [("a", Val.num 3)] 10 = Except.error e ∧
      f ∈ [(⟨"p", ["a"], FieldType.bool, some 2, false, none, none, none, none, []⟩ : FieldMeta)] ∧
      (resolveAlias f.aliases [("a", Val.num 3)]).isNull = false ∧
      applyTransform f [("a", Val.num 3)] 10
        (resolveAlias f.aliases [("a", Val.num 3)]) = Except.error e) :=
  C4_all_or_nothing [⟨"p", ["a"], FieldType.bool, some 2, false, none, none, none, none, []⟩]
    [("a", Val.num 3)] 10

lemma parseItems_ok_get (flds : List FieldMeta) (pc : Nat) (items : List Val)
    (out : List (List (String × Val))) (h : parseItems flds pc items = Except.ok out) :
    ∀ i ikvs, items.get? i = some (Val.obj ikvs) →
      ∃ r, _parse_dict flds ikvs pc = Except.ok r ∧ out.get? i = some r := by
  induction items generalizing out with
  | nil =>
    intro i ikvs hi
    cases i <;> cases hi
  | cons x t ih =>
    cases x with
    | obj kvs0 =>
      cases hp : _parse_dict flds kvs0 pc with
      | error e =>
        exfalso
        have : parseItems flds pc (Val.obj kvs0 :: t) = Except.error e := by
          simp [parseItems, hp]
        rw [this] at h
        cases h
      | ok r0 =>
        cases ht : parseItems flds pc t with
        | error e =>
          exfalso
          have : parseItems flds pc (Val.obj kvs0 :: t) = Except.error e := by
            simp [parseItems, hp, ht, Except.map]
          rw [this] at h
          cases h
        | ok t' =>
          have hout : out = r0 :: t' := by
            have : parseItems flds pc (Val.obj kvs0 :: t) = Except.ok (r0 :: t') := by
              simp [parseItems, hp, ht]
              rfl
            rw [this] at h
            cases h
            rfl
          subst hout
          intro i ikvs hi
          cases i with
          | zero =>
            cases hi
            exact ⟨r0, hp, rfl⟩
          | succ j =>
            exact ih t' ht j ikvs hi
    | null => exfalso; rw [show parseItems flds pc (Val.null :: t) = Except.error "AttributeError" from rfl] at h; cases h
    | bool b => exfalso; rw [show parseItems flds pc (Val.bool b :: t) = Except.error "AttributeError" from rfl] at h; cases h
    | num n => exfalso; rw [show parseItems flds pc (Val.num n :: t) = Except.error "AttributeError" from rfl] at h; cases h
    | rat q => exfalso; rw [show parseItems flds pc (Val.rat q :: t) = Except.error "AttributeError" from rfl] at h; cases h
    | str s => exfalso; rw [show parseItems flds pc (Val.str s :: t) = Except.error "AttributeError" from rfl] at h; cases h
    | list xs => exfalso; rw [show parseItems flds pc (Val.list xs :: t) = Except.error "AttributeError" from rfl] at h; cases h

/-- C8: a table decode of an empty top-level list or an empty top-level
object yields the empty record list (never null), and for a non-empty
input list the port count inferred from the first entry is the one used
to decode every entry: entry i of the output is the single-record parse
of entry i of the input under the first entry's inferred port count. -/
theorem C8_list_decode (flds : List FieldMeta) :
    readListDataclass flds (Val.list []) = Except.ok [] ∧
    readListDataclass flds (Val.obj []) = Except.ok [] ∧
    ∀ kvs rest out, readListDataclass flds (Val.list (Val.obj kvs :: rest)) = Except.ok out →
      ∀ i ikvs, (Val.obj kvs :: rest).get? i = some (Val.obj ikvs) →
        ∃ r, _parse_dict flds ikvs (inferPortCount kvs) = Except.ok r ∧ out.get? i = some r := by
  refine ⟨rfl, rfl, ?_⟩
  intro kvs rest out hok i ikvs hi
  have hitems : parseItems flds (inferPortCount kvs) (Val.obj kvs :: rest) = Except.ok out := by
    have : readListDataclass flds (Val.list (Val.obj kvs :: rest))
        = parseItems flds (inferPortCount kvs) (Val.obj kvs :: rest) := by
      simp [readListDataclass, pyBool]
    rw [this] at hok
    exact hok
  exact parseItems_ok_get flds (inferPortCount kvs) (Val.obj kvs :: rest) out hitems i ikvs hi

/-- C8 witness: a two-entry table whose first entry carries a one-element
list; both entries decode (to empty records under the empty schema) with
the shared inferred port count. -/
theorem C8_list_decode_w :
    ∃ r, _parse_dict [] [] (inferPortCount [("a", Val.list [Val.num 1])]) = Except.ok r ∧
      ([[], []] : List (List (String × Val))).get? 1 = some r :=
  (C8_list_decode []).2.2 [("a", Val.list [Val.num 1])] [Val.obj []] [[], []] rfl 1 [] rfl

end SwitchOS
